import Mathlib

/-!
Verification of the bus-speed-tracker activity timer (src/src/app/page.tsx)
against its natural-language specification.

The core of the page is:
* `handleActivityClick` — the activity state machine acting on the React
  state `(currentActivity, timeEntries, startTime)`;
* `calculateDurations` — per-activity percentage shares;
* `formatDuration` / `exportToCSV` — CSV serialization.

Timestamps are JavaScript millisecond numbers, modelled as `Int`.  JS strings
are modelled as Lean `String`s built from explicit character lists; decimal
rendering of numbers is modelled by `natToString` / `intToString`.  The JS
expression `x || y` on `number | null` is modelled by `jsOrNow` (both `null`
and `0` are falsy).  JS float division in `calculateDurations` is modelled by
exact rationals together with the special values `NaN` / `Infinity`
(`JSVal`), and `toFixed(1)` by round-half-up at one decimal place.
-/

/-- The three valid activities.  In the source, `type Activity` is the union
`'moving' | 'traffic' | 'dwelling' | null`; the union including `null` is
`Option ActivityKind`. -/
inductive ActivityKind where
  | moving
  | traffic
  | dwelling
deriving DecidableEq, Repr

/-- `type TimeEntry = { activity; startTime; endTime }` from the source.
`endTime = none` is the open (`null`) end time. -/
structure TimeEntry where
  activity : Option ActivityKind
  startTime : Int
  endTime : Option Int
deriving DecidableEq, Repr

/-- The React state relevant to the core: `currentActivity`, `timeEntries`
and the `startTime` state variable (lines 17–19 of the source). -/
structure AppState where
  currentActivity : Option ActivityKind
  timeEntries : List TimeEntry
  startTime : Option Int
deriving DecidableEq, Repr

/-- The initial React state: no current activity, empty log. -/
def initialState : AppState := ⟨none, [], none⟩

/-- Lines 52–54: `prev.map(entry => entry.endTime === null ? { ...entry, endTime: now } : entry)`. -/
def closeOpenEntries (now : Int) (entries : List TimeEntry) : List TimeEntry :=
  entries.map fun e => if e.endTime = none then { e with endTime := some now } else e

/-- `handleActivityClick` (lines 47–69).  `now` is sampled once (line 48).
If `currentActivity` is truthy, all open entries are closed at `now`; if the
clicked activity differs from `currentActivity`, a fresh open entry is
appended and `currentActivity` is set to it (and the session `startTime` is
recorded on first use), otherwise `currentActivity` becomes `null`. -/
def handleActivityClick (activity : Option ActivityKind) (now : Int) (s : AppState) : AppState :=
  let entries1 :=
    if s.currentActivity.isSome then closeOpenEntries now s.timeEntries else s.timeEntries
  if activity ≠ s.currentActivity then
    { currentActivity := activity
      timeEntries := entries1 ++ [{ activity := activity, startTime := now, endTime := none }]
      startTime := if s.startTime = none then some now else s.startTime }
  else
    { currentActivity := none
      timeEntries := entries1
      startTime := s.startTime }

/-- Folding a sequence of `selectActivity` calls over the initial state.
Each element of the trace is the selected activity paired with the `Date.now()`
value sampled during that call.  The trace carries `ActivityKind` (not
`Option ActivityKind`): this is the input surface declared by the spec,
`selectActivity(activity)` with `activity ∈ {Moving, Traffic, Dwelling}`. -/
def runTrace (trace : List (ActivityKind × Int)) : AppState :=
  trace.foldl (fun s p => handleActivityClick (some p.1) p.2 s) initialState

/-- JS `entry.endTime || Date.now()` on `number | null` (lines 92 and 140):
`null` and `0` are falsy, every other number is truthy. -/
def jsOrNow (endTime : Option Int) (now : Int) : Int :=
  match endTime with
  | none => now
  | some t => if t = 0 then now else t

/-! ### Decimal rendering of numbers (JS `${n}` / `toString`) -/

/-- The decimal digit characters. -/
def digitChar (n : Nat) : Char :=
  match n with
  | 0 => '0'
  | 1 => '1'
  | 2 => '2'
  | 3 => '3'
  | 4 => '4'
  | 5 => '5'
  | 6 => '6'
  | 7 => '7'
  | 8 => '8'
  | 9 => '9'
  | _ => '*'

/-- Fuel-driven decimal digit expansion (most significant digit first). -/
def natToCharsFuel : Nat → Nat → List Char
  | 0, _ => []
  | fuel + 1, n =>
    if n < 10 then [digitChar n]
    else natToCharsFuel fuel (n / 10) ++ [digitChar (n % 10)]

/-- Decimal digits of `n`; `n + 1` units of fuel always suffice. -/
def natToChars (n : Nat) : List Char := natToCharsFuel (n + 1) n

/-- JS decimal rendering of a nonnegative number. -/
def natToString (n : Nat) : String := String.mk (natToChars n)

/-- JS decimal rendering of an integer (template-literal `${n}`). -/
def intToString (n : Int) : String :=
  if n < 0 then "-" ++ natToString n.natAbs else natToString n.toNat

/-- JS `String.prototype.padStart(len, c)` for ASCII strings. -/
def padStart (s : String) (len : Nat) (c : Char) : String :=
  String.mk (List.replicate (len - s.data.length) c) ++ s

/-- JS `Array.prototype.join(sep)`. -/
def jsJoin (sep : String) : List String → String
  | [] => ""
  | [x] => x
  | x :: y :: xs => x ++ sep ++ jsJoin sep (y :: xs)

/-- JS template-literal coercion of an `Activity` value: the activity's
canonical lowercase name, or the string `"null"` for `null`. -/
def jsShowActivity : Option ActivityKind → String
  | none => "null"
  | some ActivityKind.moving => "moving"
  | some ActivityKind.traffic => "traffic"
  | some ActivityKind.dwelling => "dwelling"

/-- `formatDuration` (lines 81–87).  `Math.floor(x / k)` on integer input is
`Int.fdiv`, JS `%` is the truncated remainder `Int.tmod`. -/
def formatDuration (startTime endTime : Int) : String :=
  let duration := endTime - startTime
  let minutes := duration.fdiv 60000
  let seconds := (duration.tmod 60000).fdiv 1000
  let milliseconds := duration.tmod 1000
  intToString minutes ++ ":" ++ padStart (intToString seconds) 2 '0' ++ "." ++
    padStart (intToString milliseconds) 3 '0'

/-- One CSV data row (lines 91–95).  `formatTimeForCSV` (lines 71–79) calls
`Date.prototype.toLocaleTimeString`, which depends on the host locale; it is
therefore passed in as the parameter `fmtTime`. -/
def exportRow (fmtTime : Int → String) (now : Int) (e : TimeEntry) : String :=
  let endTime := jsOrNow e.endTime now
  let duration := formatDuration e.startTime endTime
  jsShowActivity e.activity ++ "," ++ fmtTime e.startTime ++ "," ++ fmtTime endTime ++ "," ++
    duration

/-- The CSV text built by `exportToCSV` (lines 89–97):
`[headers.join(','), ...rows].join('\n')`.  Only the byte content is
modelled; file delivery is the platform's concern. -/
def exportToCSV (fmtTime : Int → String) (entries : List TimeEntry) (now : Int) : String :=
  jsJoin "\n"
    (jsJoin "," ["activity_type", "start_time", "end_time", "duration"] ::
      entries.map (exportRow fmtTime now))

/-! ### Aggregation (`calculateDurations`, lines 132–153) -/

/-- The `durations` accumulator object after the `forEach` loop
(lines 139–145): summed per-activity durations, entries with a `null`
activity skipped (`if (entry.activity)`). -/
def durationsOf (entries : List TimeEntry) (now : Int) : Int × Int × Int :=
  entries.foldl
    (fun acc e =>
      let endV := jsOrNow e.endTime now
      let duration := endV - e.startTime
      match e.activity with
      | some ActivityKind.moving => (acc.1 + duration, acc.2.1, acc.2.2)
      | some ActivityKind.traffic => (acc.1, acc.2.1 + duration, acc.2.2)
      | some ActivityKind.dwelling => (acc.1, acc.2.1, acc.2.2 + duration)
      | none => acc)
    (0, 0, 0)

/-- `total` (line 147). -/
def totalDuration (entries : List TimeEntry) (now : Int) : Int :=
  (durationsOf entries now).1 + (durationsOf entries now).2.1 + (durationsOf entries now).2.2

/-- A JS number that can arise from dividing integers: either a special
value (`NaN`, `±Infinity`) or an exact rational. -/
inductive JSVal where
  | nan
  | inf
  | neginf
  | num (q : ℚ)
deriving DecidableEq, Repr

/-- JS division of two integer-valued numbers: division by zero yields
`NaN` (for `0/0`) or a signed infinity. -/
def jsDiv (a b : Int) : JSVal :=
  if b = 0 then
    if a = 0 then JSVal.nan else if 0 < a then JSVal.inf else JSVal.neginf
  else JSVal.num ((a : ℚ) / (b : ℚ))

/-- JS multiplication of a division result by the literal `100`. -/
def jsMul100 : JSVal → JSVal
  | JSVal.nan => JSVal.nan
  | JSVal.inf => JSVal.inf
  | JSVal.neginf => JSVal.neginf
  | JSVal.num q => JSVal.num (q * 100)

/-- Round-half-up at one decimal place: the integer `n` minimising
`|n / 10 - q|`, ties to the larger `n`, exactly as `toFixed` specifies. -/
def round1 (q : ℚ) : Int := ⌊q * 10 + 1 / 2⌋

/-- The decimal string whose value is `n / 10`, one digit after the point:
the shape of a `toFixed(1)` result. -/
def fixed1 (n : Int) : String :=
  (if n < 0 then "-" else "") ++ natToString (n.natAbs / 10) ++ "." ++
    natToString (n.natAbs % 10)

/-- JS `x.toFixed(1)`. -/
def toFixed1 : JSVal → String
  | JSVal.nan => "NaN"
  | JSVal.inf => "Infinity"
  | JSVal.neginf => "-Infinity"
  | JSVal.num q => fixed1 (round1 q)

/-- `calculateDurations` (lines 132–153): the three formatted percentage
shares `(moving, traffic, dwelling)`.  No guard is applied to `total`. -/
def calculateDurations (entries : List TimeEntry) (now : Int) : String × String × String :=
  let d := durationsOf entries now
  let total := d.1 + d.2.1 + d.2.2
  (toFixed1 (jsMul100 (jsDiv d.1 total)),
   toFixed1 (jsMul100 (jsDiv d.2.1 total)),
   toFixed1 (jsMul100 (jsDiv d.2.2 total)))

/-! ### Parsing the exported CSV (the round-trip direction of C8) -/

/-- Split a character list at every occurrence of `sep`
(JS `String.prototype.split` with a one-character separator). -/
def splitCh (sep : Char) : List Char → List (List Char)
  | [] => [[]]
  | c :: cs =>
    let r := splitCh sep cs
    if c = sep then [] :: r
    else
      match r with
      | [] => [[c]]
      | h :: t => (c :: h) :: t

/-- Numeric value of a digit string read most-significant-first. -/
def digitsToNat (l : List Char) : Nat :=
  l.foldl (fun acc c => acc * 10 + (c.toNat - 48)) 0

/-- Parse a nonempty all-digit string as a natural number. -/
def parseNatChars (l : List Char) : Option Nat :=
  if l ≠ [] ∧ l.all Char.isDigit then some (digitsToNat l) else none

/-- Parse a `minutes:seconds.milliseconds` duration field back to
milliseconds. -/
def parseDurationChars (l : List Char) : Option Nat :=
  match splitCh ':' l with
  | [m, rest] =>
    match splitCh '.' rest with
    | [s, ms] => do
      let mv ← parseNatChars m
      let sv ← parseNatChars s
      let msv ← parseNatChars ms
      pure (mv * 60000 + sv * 1000 + msv)
    | _ => none
  | _ => none

/-- Parse the CSV text: split rows on newlines, skip the header row, split
each row on commas. -/
def parseCSV (csv : String) : List (List (List Char)) :=
  ((splitCh '\n' csv.data).drop 1).map (splitCh ',')

/-! ### Spec-side definitions -/

/-- From the spec (§4.3): the duration field format, `minutes:seconds.milliseconds`
with minutes unpadded, seconds zero-padded to 2 digits, milliseconds
zero-padded to 3 digits, for a nonnegative millisecond duration. -/
def specDurationText (d : Nat) : String :=
  natToString (d / 60000) ++ ":" ++ padStart (natToString (d % 60000 / 1000)) 2 '0' ++ "." ++
    padStart (natToString (d % 1000)) 3 '0'

/-- From the spec (§4.3): one serialized row per entry — the activity's
canonical lowercase name, the two formatted wall-clock times (open entries
use `now`), and the duration in `specDurationText` format. -/
def serializeSpec (fmtTime : Int → String) (entries : List TimeEntry) (now : Int) : String :=
  jsJoin "\n"
    ("activity_type,start_time,end_time,duration" ::
      entries.map fun e =>
        let endT := jsOrNow e.endTime now
        (match e.activity with
         | some k => jsShowActivity (some k)
         | none => "") ++ "," ++ fmtTime e.startTime ++ "," ++ fmtTime endT ++ "," ++
          specDurationText (endT - e.startTime).toNat)

/-- From the spec (§4.2): an entry's effective duration at `now` —
`endTime` if the entry is closed (its end time is present), else `now`,
minus `startTime`. -/
def effectiveDurationSpec (e : TimeEntry) (now : Int) : Nat :=
  ((match e.endTime with
    | some t => t
    | none => now) - e.startTime).toNat

/-! ### Invariants of the state machine -/

/-- Every entry of the list is closed. -/
def allClosed (l : List TimeEntry) : Prop := ∀ e ∈ l, e.endTime ≠ none

/-- The shape invariant tying `currentActivity` to the log: when idle the
log is fully closed; when `Active a` the log ends in a single open entry
for `a` and everything before it is closed. -/
def Shape (s : AppState) : Prop :=
  (s.currentActivity = none → allClosed s.timeEntries) ∧
  (∀ a, s.currentActivity = some a →
    ∃ l e, s.timeEntries = l ++ [e] ∧ e.endTime = none ∧ e.activity = some a ∧ allClosed l)

/-- Every entry of the list carries one of the three valid activities. -/
def validActivities (l : List TimeEntry) : Prop := ∀ e ∈ l, e.activity ≠ none

/-- The reachability invariant maintained by `handleActivityClick` on valid
inputs. -/
def Good (s : AppState) : Prop := Shape s ∧ validActivities s.timeEntries

/-- States reachable from the initial state by `selectActivity` calls with
valid activities. -/
inductive Reachable : AppState → Prop where
  | init : Reachable initialState
  | step (s : AppState) (a : ActivityKind) (now : Int) :
      Reachable s → Reachable (handleActivityClick (some a) now s)

/-- Interval compatibility of two adjacent entries: start times are
non-decreasing, and a closed earlier entry ends no later than the next
entry starts. -/
def entryLE (e1 e2 : TimeEntry) : Prop :=
  e1.startTime ≤ e2.startTime ∧ ∀ t, e1.endTime = some t → t ≤ e2.startTime

/-- The log is ordered: adjacent entries are interval-compatible. -/
def Ordered (l : List TimeEntry) : Prop := List.Chain' entryLE l

/-- All timestamps in the log are bounded by `b`. -/
def TimeBound (l : List TimeEntry) (b : Int) : Prop :=
  ∀ e ∈ l, e.startTime ≤ b ∧ ∀ t, e.endTime = some t → t ≤ b

/-- Number of open entries in the log. -/
def countOpen (l : List TimeEntry) : Nat := l.countP fun e => e.endTime.isNone

/-- Replace an entry closed exactly at the epoch (`endTime = 0`) by an open
entry; used to state that the falsy end-time test conflates the two. -/
def zeroToOpen (e : TimeEntry) : TimeEntry :=
  if e.endTime = some 0 then { e with endTime := none } else e

/-- `entryLE` is decidable (the quantifier ranges only over the stored end
time). -/
instance entryLEDecidable : DecidableRel entryLE := by
  intro e1 e2
  cases h : e1.endTime with
  | none =>
    refine decidable_of_iff (e1.startTime ≤ e2.startTime) ?_
    constructor
    · intro h1
      refine ⟨h1, ?_⟩
      intro t ht
      rw [h] at ht
      cases ht
    · intro hh
      exact hh.1
  | some t0 =>
    refine decidable_of_iff (e1.startTime ≤ e2.startTime ∧ t0 ≤ e2.startTime) ?_
    constructor
    · intro hh
      refine ⟨hh.1, ?_⟩
      intro t ht
      rw [h] at ht
      injection ht with he
      rw [← he]
      exact hh.2
    · intro hh
      exact ⟨hh.1, hh.2 t0 h⟩

/-! ### Basic lemmas about closing entries -/

theorem allClosed_closeOpenEntries (now : Int) (l : List TimeEntry) :
    allClosed (closeOpenEntries now l) := by
  intro e he
  rw [closeOpenEntries, List.mem_map] at he
  obtain ⟨x, hx, rfl⟩ := he
  by_cases h : x.endTime = none
  · simp [h]
  · simp [h]

theorem closeOpenEntries_of_allClosed (now : Int) (l : List TimeEntry) (h : allClosed l) :
    closeOpenEntries now l = l := by
  induction l with
  | nil => rfl
  | cons x xs ih =>
    have hx : x.endTime ≠ none := h x (List.mem_cons_self x xs)
    have hxs : allClosed xs := fun e he => h e (List.mem_cons_of_mem x he)
    have hcons : closeOpenEntries now (x :: xs) =
        (if x.endTime = none then { x with endTime := some now } else x) ::
          closeOpenEntries now xs := rfl
    rw [hcons, if_neg hx, ih hxs]

theorem closeOpenEntries_append (now : Int) (l1 l2 : List TimeEntry) :
    closeOpenEntries now (l1 ++ l2) = closeOpenEntries now l1 ++ closeOpenEntries now l2 :=
  List.map_append _ _ _

theorem closeOpenEntries_open_singleton (now : Int) (e : TimeEntry) (h : e.endTime = none) :
    closeOpenEntries now [e] = [{ e with endTime := some now }] := by
  simp [closeOpenEntries, h]

theorem validActivities_closeOpenEntries (now : Int) (l : List TimeEntry)
    (h : validActivities l) : validActivities (closeOpenEntries now l) := by
  intro e he
  rw [closeOpenEntries, List.mem_map] at he
  obtain ⟨x, hx, rfl⟩ := he
  by_cases h2 : x.endTime = none <;> simp [h2] <;> exact h x hx

/-! ### Unfolding the transition function -/

theorem handleActivityClick_eq_same (a : Option ActivityKind) (now : Int) (s : AppState)
    (h : a = s.currentActivity) :
    handleActivityClick a now s =
      { currentActivity := none
        timeEntries :=
          if s.currentActivity.isSome then closeOpenEntries now s.timeEntries else s.timeEntries
        startTime := s.startTime } := by
  rw [handleActivityClick]
  simp [h]

theorem handleActivityClick_eq_diff (a : Option ActivityKind) (now : Int) (s : AppState)
    (h : a ≠ s.currentActivity) :
    handleActivityClick a now s =
      { currentActivity := a
        timeEntries :=
          (if s.currentActivity.isSome then closeOpenEntries now s.timeEntries
           else s.timeEntries) ++ [⟨a, now, none⟩]
        startTime := if s.startTime = none then some now else s.startTime } := by
  rw [handleActivityClick]
  simp [h]

/-! ### Preservation of the invariant -/

theorem good_initial : Good initialState := by
  refine ⟨⟨fun _ => ?_, fun a ha => ?_⟩, ?_⟩
  · intro e he
    cases he
  · cases ha
  · intro e he
    cases he

theorem good_step (s : AppState) (a : ActivityKind) (now : Int) (h : Good s) :
    Good (handleActivityClick (some a) now s) := by
  obtain ⟨⟨hidle, hact⟩, hv⟩ := h
  cases hc : s.currentActivity with
  | none =>
    have hne : (some a : Option ActivityKind) ≠ s.currentActivity := by
      rw [hc]
      simp
    have hclosed := hidle hc
    rw [handleActivityClick_eq_diff _ _ _ hne, hc]
    refine ⟨⟨fun habs => ?_, fun b hb => ?_⟩, ?_⟩
    · cases habs
    · injection hb with hb
      refine ⟨s.timeEntries, ⟨some a, now, none⟩, by simp, rfl, by rw [hb], hclosed⟩
    · intro e he
      simp only [Option.isSome_none, Bool.false_eq_true, if_false, List.mem_append,
        List.mem_singleton] at he
      rcases he with he | rfl
      · exact hv e he
      · simp
  | some a0 =>
    obtain ⟨l, e, hle, heo, hea, hlc⟩ := hact a0 hc
    have hentries1 :
        (if s.currentActivity.isSome then closeOpenEntries now s.timeEntries
         else s.timeEntries) = l ++ [{ e with endTime := some now }] := by
      rw [hc]
      simp only [Option.isSome_some, if_true]
      rw [hle, closeOpenEntries_append, closeOpenEntries_of_allClosed now l hlc,
        closeOpenEntries_open_singleton now e heo]
    have hvclosed : validActivities (l ++ [{ e with endTime := some now }]) := by
      intro x hx
      rcases List.mem_append.mp hx with hx | hx
      · exact hv x (by rw [hle]; exact List.mem_append.mpr (Or.inl hx))
      · rw [List.mem_singleton] at hx
        subst hx
        have : e.activity ≠ none := hv e (by rw [hle]; simp)
        simpa using this
    have hallclosed : allClosed (l ++ [{ e with endTime := some now }]) := by
      intro x hx
      rcases List.mem_append.mp hx with hx | hx
      · exact hlc x hx
      · rw [List.mem_singleton] at hx
        subst hx
        simp
    by_cases hsame : a = a0
    · subst hsame
      have heq : (some a : Option ActivityKind) = s.currentActivity := by rw [hc]
      rw [handleActivityClick_eq_same _ _ _ heq, hentries1]
      exact ⟨⟨fun _ => hallclosed, fun b hb => by cases hb⟩, hvclosed⟩
    · have hne : (some a : Option ActivityKind) ≠ s.currentActivity := by
        rw [hc]
        intro habs
        injection habs with habs
        exact hsame habs
      rw [handleActivityClick_eq_diff _ _ _ hne, hentries1]
      refine ⟨⟨fun habs => ?_, fun b hb => ?_⟩, ?_⟩
      · cases habs
      · injection hb with hb
        exact ⟨l ++ [{ e with endTime := some now }], ⟨some a, now, none⟩, rfl, rfl,
          by rw [hb], hallclosed⟩
      · intro x hx
        rcases List.mem_append.mp hx with hx | hx
        · exact hvclosed x hx
        · rw [List.mem_singleton] at hx
          subst hx
          simp

theorem reachable_good (s : AppState) (h : Reachable s) : Good s := by
  induction h with
  | init => exact good_initial
  | step s a now _ ih => exact good_step s a now ih

theorem foldl_reachable (trace : List (ActivityKind × Int)) (s : AppState) (h : Reachable s) :
    Reachable (trace.foldl (fun s p => handleActivityClick (some p.1) p.2 s) s) := by
  induction trace generalizing s with
  | nil => exact h
  | cons p rest ih => exact ih _ (Reachable.step s p.1 p.2 h)

theorem runTrace_reachable (trace : List (ActivityKind × Int)) : Reachable (runTrace trace) :=
  foldl_reachable trace initialState Reachable.init

theorem mem_of_getLast?_eq {l : List TimeEntry} {e : TimeEntry} (h : l.getLast? = some e) :
    e ∈ l := by
  rcases List.eq_nil_or_concat l with rfl | ⟨l2, x, rfl⟩
  · cases h
  · rw [List.concat_eq_append, List.getLast?_concat] at h
    injection h with h
    subst h
    simp

/-! ### C1, C4, C9: invariants of the reachable states -/

/-- C1: for every sequence of `selectActivity` calls (over the spec's input
surface, the three valid activities) starting from the empty log, at most
one entry of the resulting log is open.  Every prefix of a trace is itself
a trace, so this covers the log after every call. -/
theorem c1_at_most_one_open (trace : List (ActivityKind × Int)) :
    countOpen (runTrace trace).timeEntries ≤ 1 := by
  obtain ⟨⟨hidle, hact⟩, _⟩ := reachable_good _ (runTrace_reachable trace)
  cases hc : (runTrace trace).currentActivity with
  | none =>
    have hclosed := hidle hc
    have hzero : countOpen (runTrace trace).timeEntries = 0 := by
      rw [countOpen, List.countP_eq_zero]
      intro e he
      simpa [Option.isNone_iff_eq_none] using hclosed e he
    omega
  | some a =>
    obtain ⟨l, e, hle, heo, _, hlc⟩ := hact a hc
    rw [countOpen, hle, List.countP_append]
    have h1 : l.countP (fun e => e.endTime.isNone) = 0 := by
      rw [List.countP_eq_zero]
      intro x hx
      simpa [Option.isNone_iff_eq_none] using hlc x hx
    have h2 : List.countP (fun e => e.endTime.isNone) [e] = 1 := by
      simp [List.countP_cons, heo]
    omega

/-- C4: after every sequence of `selectActivity` calls, the cached
`currentActivity` is consistent with the log tail: it is `some a` exactly
when the log ends in an open entry for `a`, and `none` exactly when no
entry is open. -/
theorem c4_current_activity_consistent (trace : List (ActivityKind × Int)) :
    (∀ a : ActivityKind,
      (runTrace trace).currentActivity = some a ↔
        (runTrace trace).timeEntries ≠ [] ∧
          ∃ e, (runTrace trace).timeEntries.getLast? = some e ∧
            e.endTime = none ∧ e.activity = some a) ∧
    ((runTrace trace).currentActivity = none ↔
      ∀ e ∈ (runTrace trace).timeEntries, e.endTime ≠ none) := by
  obtain ⟨⟨hidle, hact⟩, _⟩ := reachable_good _ (runTrace_reachable trace)
  constructor
  · intro a
    constructor
    · intro hc
      obtain ⟨l, e, hle, heo, hea, _⟩ := hact a hc
      refine ⟨by simp [hle], e, ?_, heo, hea⟩
      rw [hle, List.getLast?_concat]
    · rintro ⟨_, e, hlast, heo, hea⟩
      cases hc : (runTrace trace).currentActivity with
      | none => exact absurd heo (hidle hc e (mem_of_getLast?_eq hlast))
      | some b =>
        obtain ⟨l2, e2, hle2, _, hea2, _⟩ := hact b hc
        rw [hle2, List.getLast?_concat] at hlast
        injection hlast with hlast
        subst hlast
        rw [hea] at hea2
        injection hea2 with hba
        rw [hba]
  · constructor
    · exact hidle
    · intro hclosed
      cases hc : (runTrace trace).currentActivity with
      | none => rfl
      | some b =>
        obtain ⟨l2, e2, hle2, heo2, _, _⟩ := hact b hc
        have : e2 ∈ (runTrace trace).timeEntries := by
          rw [hle2]
          simp
        exact absurd heo2 (hclosed e2 this)

/-- C9 (as stated) is false on the code: `handleActivityClick` applies no
guard, and calling it with the `null` activity while `moving` is active
closes the open entry and appends a new open entry whose activity is
`null`, which thereby enters the log. -/
theorem c9_counterexample :
    (handleActivityClick none 1
        (handleActivityClick (some ActivityKind.moving) 0 initialState)).timeEntries =
      [⟨some ActivityKind.moving, 0, some 1⟩, ⟨none, 1, none⟩] ∧
    ∃ e ∈ (handleActivityClick none 1
        (handleActivityClick (some ActivityKind.moving) 0 initialState)).timeEntries,
      e.activity = none := by
  refine ⟨by decide, ⟨none, 1, none⟩, by decide, rfl⟩

/-- C9 (amended): the code does not reject out-of-enumeration inputs (see
the counterexample), but for every sequence of `selectActivity` calls whose
arguments are drawn from the three valid activities, every entry of the
resulting log carries a valid activity. -/
theorem c9_valid_inputs_give_valid_entries (trace : List (ActivityKind × Int))
    (e : TimeEntry) (he : e ∈ (runTrace trace).timeEntries) :
    ∃ k : ActivityKind, e.activity = some k := by
  have hv := (reachable_good _ (runTrace_reachable trace)).2
  have hne := hv e he
  cases hk : e.activity with
  | none => exact absurd hk hne
  | some k => exact ⟨k, rfl⟩

theorem c9_witness :
    (⟨some ActivityKind.moving, 0, none⟩ : TimeEntry) ∈
        (runTrace [(ActivityKind.moving, 0)]).timeEntries ∧
      ∃ k : ActivityKind, (⟨some ActivityKind.moving, 0, none⟩ : TimeEntry).activity = some k :=
  ⟨by decide, c9_valid_inputs_give_valid_entries [(ActivityKind.moving, 0)] _ (by decide)⟩

/-! ### C2: the three transition cases -/

/-- The three spec cases of a `select(b)` transition at time `now`, stated
on the log and the cached activity.  `TransitionSpec s b now` says: from
`Idle` the call appends a fresh open entry for `b` and activates `b`; from
`Active b` it closes the single open (last) entry at `now` and deactivates;
from `Active a` with `b ≠ a` it closes the open entry at `now`, appends a
fresh open entry for `b` with the same `now`, and activates `b`. -/
def TransitionSpec (s : AppState) (b : ActivityKind) (now : Int) : Prop :=
  (s.currentActivity = none →
    (handleActivityClick (some b) now s).timeEntries =
        s.timeEntries ++ [⟨some b, now, none⟩] ∧
      (handleActivityClick (some b) now s).currentActivity = some b) ∧
  (s.currentActivity = some b →
    ∃ l e, s.timeEntries = l ++ [e] ∧ e.endTime = none ∧
      (handleActivityClick (some b) now s).timeEntries =
          l ++ [{ e with endTime := some now }] ∧
      (handleActivityClick (some b) now s).currentActivity = none) ∧
  (∀ a, s.currentActivity = some a → b ≠ a →
    ∃ l e, s.timeEntries = l ++ [e] ∧ e.endTime = none ∧ e.activity = some a ∧
      (handleActivityClick (some b) now s).timeEntries =
          l ++ [{ e with endTime := some now }] ++ [⟨some b, now, none⟩] ∧
      (handleActivityClick (some b) now s).currentActivity = some b)

/-- C2: on every reachable state, a `selectActivity` call behaves exactly
per the three spec cases, with the single sampled `now` used both to close
and to open. -/
theorem c2_transition_cases (s : AppState) (h : Reachable s) (b : ActivityKind) (now : Int) :
    TransitionSpec s b now := by
  obtain ⟨⟨hidle, hact⟩, _⟩ := reachable_good s h
  refine ⟨?_, ?_, ?_⟩
  · intro hc
    have hne : (some b : Option ActivityKind) ≠ s.currentActivity := by
      rw [hc]
      simp
    rw [handleActivityClick_eq_diff _ _ _ hne, hc]
    simp
  · intro hc
    obtain ⟨l, e, hle, heo, _, hlc⟩ := hact b hc
    refine ⟨l, e, hle, heo, ?_, ?_⟩
    · rw [handleActivityClick_eq_same _ _ _ hc.symm, hc]
      simp only [Option.isSome_some, if_true]
      rw [hle, closeOpenEntries_append, closeOpenEntries_of_allClosed now l hlc,
        closeOpenEntries_open_singleton now e heo]
    · rw [handleActivityClick_eq_same _ _ _ hc.symm]
  · intro a hc hba
    obtain ⟨l, e, hle, heo, hea, hlc⟩ := hact a hc
    have hne : (some b : Option ActivityKind) ≠ s.currentActivity := by
      rw [hc]
      intro habs
      injection habs with habs
      exact hba habs
    refine ⟨l, e, hle, heo, hea, ?_, ?_⟩
    · rw [handleActivityClick_eq_diff _ _ _ hne, hc]
      simp only [Option.isSome_some, if_true]
      rw [hle, closeOpenEntries_append, closeOpenEntries_of_allClosed now l hlc,
        closeOpenEntries_open_singleton now e heo]
    · rw [handleActivityClick_eq_diff _ _ _ hne]

theorem c2_witness :
    TransitionSpec (handleActivityClick (some ActivityKind.moving) 0 initialState)
      ActivityKind.traffic 7 :=
  c2_transition_cases _ (Reachable.step initialState ActivityKind.moving 0 Reachable.init)
    ActivityKind.traffic 7

/-! ### C5: ordering and the zero-gap handoff -/

theorem close_decomp (now : Int) (l : List TimeEntry) (e : TimeEntry)
    (heo : e.endTime = none) (hlc : allClosed l) :
    closeOpenEntries now (l ++ [e]) = l ++ [{ e with endTime := some now }] := by
  rw [closeOpenEntries_append, closeOpenEntries_of_allClosed now l hlc,
    closeOpenEntries_open_singleton now e heo]

theorem ordered_step (s : AppState) (a : ActivityKind) (now b : Int)
    (hg : Good s) (htb : TimeBound s.timeEntries b) (ho : Ordered s.timeEntries)
    (hbn : b ≤ now) :
    TimeBound (handleActivityClick (some a) now s).timeEntries now ∧
    Ordered (handleActivityClick (some a) now s).timeEntries := by
  obtain ⟨⟨hidle, hact⟩, _⟩ := hg
  cases hc : s.currentActivity with
  | none =>
    have hne : (some a : Option ActivityKind) ≠ s.currentActivity := by
      rw [hc]
      simp
    rw [handleActivityClick_eq_diff _ _ _ hne, hc]
    simp only [Option.isSome_none, Bool.false_eq_true, if_false]
    constructor
    · intro e he
      rcases List.mem_append.mp he with he | he
      · obtain ⟨h1, h2⟩ := htb e he
        exact ⟨le_trans h1 hbn, fun t ht => le_trans (h2 t ht) hbn⟩
      · rw [List.mem_singleton] at he
        subst he
        exact ⟨le_refl now, fun t ht => by cases ht⟩
    · rw [Ordered, List.chain'_append]
      refine ⟨ho, List.chain'_singleton _, ?_⟩
      intro x hx y hy
      have hxm : x ∈ s.timeEntries := mem_of_getLast?_eq (Option.mem_def.mp hx)
      have hy2 : y = ⟨some a, now, none⟩ := by
        rw [List.head?_cons, Option.mem_def] at hy
        injection hy with hy
        rw [hy]
      subst hy2
      obtain ⟨h1, h2⟩ := htb x hxm
      exact ⟨le_trans h1 hbn, fun t ht => le_trans (h2 t ht) hbn⟩
  | some a0 =>
    obtain ⟨l, e, hle, heo, hea, hlc⟩ := hact a0 hc
    have hentries1 :
        (if s.currentActivity.isSome then closeOpenEntries now s.timeEntries
         else s.timeEntries) = l ++ [{ e with endTime := some now }] := by
      rw [hc]
      simp only [Option.isSome_some, if_true]
      rw [hle, close_decomp now l e heo hlc]
    have hlb : ∀ x ∈ l, x.startTime ≤ b ∧ ∀ t, x.endTime = some t → t ≤ b := by
      intro x hx
      exact htb x (by rw [hle]; exact List.mem_append.mpr (Or.inl hx))
    have heb := htb e (by rw [hle]; simp)
    have htb2 : TimeBound (l ++ [{ e with endTime := some now }]) now := by
      intro x hx
      rcases List.mem_append.mp hx with hx | hx
      · obtain ⟨h1, h2⟩ := hlb x hx
        exact ⟨le_trans h1 hbn, fun t ht => le_trans (h2 t ht) hbn⟩
      · rw [List.mem_singleton] at hx
        subst hx
        refine ⟨le_trans heb.1 hbn, fun t ht => ?_⟩
        injection ht with ht
        rw [← ht]
    have ho2 : Ordered (l ++ [{ e with endTime := some now }]) := by
      rw [hle] at ho
      rw [Ordered, List.chain'_append]
      obtain ⟨h1, _, hlast⟩ := List.chain'_append.mp ho
      refine ⟨h1, List.chain'_singleton _, ?_⟩
      intro x hx y hy
      have hy2 : y = { e with endTime := some now } := by
        rw [List.head?_cons, Option.mem_def] at hy
        injection hy with hy
        rw [hy]
      subst hy2
      have hxe : entryLE x e := hlast x hx e (by simp)
      exact ⟨hxe.1, hxe.2⟩
    by_cases hsame : a = a0
    · subst hsame
      have heq : (some a : Option ActivityKind) = s.currentActivity := by rw [hc]
      rw [handleActivityClick_eq_same _ _ _ heq, hentries1]
      exact ⟨htb2, ho2⟩
    · have hne : (some a : Option ActivityKind) ≠ s.currentActivity := by
        rw [hc]
        intro habs
        injection habs with habs
        exact hsame habs
      rw [handleActivityClick_eq_diff _ _ _ hne, hentries1]
      constructor
      · intro x hx
        rcases List.mem_append.mp hx with hx | hx
        · exact htb2 x hx
        · rw [List.mem_singleton] at hx
          subst hx
          exact ⟨le_refl now, fun t ht => by cases ht⟩
      · rw [Ordered, List.chain'_append]
        refine ⟨ho2, List.chain'_singleton _, ?_⟩
        intro x hx y hy
        have hy2 : y = (⟨some a, now, none⟩ : TimeEntry) := by
          rw [List.head?_cons, Option.mem_def] at hy
          injection hy with hy
          rw [hy]
        subst hy2
        have hx2 : x = { e with endTime := some now } := by
          rw [List.getLast?_concat, Option.mem_def] at hx
          injection hx with hx
          rw [hx]
        subst hx2
        refine ⟨le_trans heb.1 hbn, fun t ht => ?_⟩
        injection ht with ht
        rw [← ht]

theorem ordered_foldl (trace : List (ActivityKind × Int)) :
    ∀ (s : AppState) (b : Int), Good s → TimeBound s.timeEntries b → Ordered s.timeEntries →
      List.Chain (fun x y : Int => x ≤ y) b (trace.map Prod.snd) →
      Ordered ((trace.foldl (fun s p => handleActivityClick (some p.1) p.2 s) s).timeEntries) := by
  induction trace with
  | nil =>
    intro s b _ _ ho _
    exact ho
  | cons p rest ih =>
    intro s b hg htb ho hchain
    rw [List.map_cons, List.chain_cons] at hchain
    obtain ⟨hb, hrest⟩ := hchain
    obtain ⟨htb2, ho2⟩ := ordered_step s p.1 p.2 b hg htb ho hb
    exact ih _ p.2 (good_step s p.1 p.2 hg) htb2 ho2 hrest

/-- C5: (1) for every trace of `selectActivity` calls whose sampled
timestamps are non-decreasing, adjacent log entries have non-decreasing
start times and every closed entry ends no later than its successor
starts; (2) selecting a different activity `bk` while `a` is active makes
the log end in a closed entry for `a` and an open entry for `bk` with
`entries[i].endTime = some (entries[i+1].startTime)` exactly — the zero-gap,
zero-overlap handoff at the single sampled `now`. -/
theorem c5_ordered_and_zero_gap :
    (∀ trace : List (ActivityKind × Int),
        List.Chain' (fun p q : ActivityKind × Int => p.2 ≤ q.2) trace →
        Ordered (runTrace trace).timeEntries) ∧
    (∀ (s : AppState) (a bk : ActivityKind) (now : Int), Reachable s →
        s.currentActivity = some a → bk ≠ a →
        ∃ l e1 e2, (handleActivityClick (some bk) now s).timeEntries = l ++ [e1, e2] ∧
          e1.endTime = some e2.startTime ∧ e2.startTime = now ∧
          e1.activity = some a ∧ e2.activity = some bk ∧ e2.endTime = none) := by
  constructor
  · intro trace hchain
    cases trace with
    | nil => exact List.chain'_nil
    | cons p rest =>
      have hch2 : List.Chain (fun x y : ActivityKind × Int => x.2 ≤ y.2) p rest := hchain
      have hch : List.Chain (fun x y : Int => x ≤ y) p.2 ((p :: rest).map Prod.snd) := by
        rw [List.map_cons, List.chain_cons]
        exact ⟨le_refl p.2, (List.chain_map Prod.snd).mpr hch2⟩
      exact ordered_foldl (p :: rest) initialState p.2 good_initial
        (fun e he => absurd he (List.not_mem_nil e)) List.chain'_nil hch
  · intro s a bk now hr hc hba
    obtain ⟨⟨hidle, hact⟩, _⟩ := reachable_good s hr
    obtain ⟨l, e, hle, heo, hea, hlc⟩ := hact a hc
    have hne : (some bk : Option ActivityKind) ≠ s.currentActivity := by
      rw [hc]
      intro habs
      injection habs with habs
      exact hba habs
    refine ⟨l, { e with endTime := some now }, ⟨some bk, now, none⟩, ?_, rfl, rfl, hea, rfl, rfl⟩
    rw [handleActivityClick_eq_diff _ _ _ hne, hc]
    simp only [Option.isSome_some, if_true]
    rw [hle, close_decomp now l e heo hlc, List.append_assoc]
    rfl

theorem c5_witness :
    Ordered (runTrace [(ActivityKind.moving, 0), (ActivityKind.traffic, 60000)]).timeEntries ∧
    ∃ l e1 e2,
      (handleActivityClick (some ActivityKind.traffic) 60000
          (handleActivityClick (some ActivityKind.moving) 0 initialState)).timeEntries =
        l ++ [e1, e2] ∧ e1.endTime = some e2.startTime ∧ e2.startTime = 60000 ∧
        e1.activity = some ActivityKind.moving ∧ e2.activity = some ActivityKind.traffic ∧
        e2.endTime = none :=
  ⟨c5_ordered_and_zero_gap.1 _ (List.chain'_cons.mpr ⟨by decide, List.chain'_singleton _⟩),
   c5_ordered_and_zero_gap.2 _ ActivityKind.moving ActivityKind.traffic 60000
     (Reachable.step initialState ActivityKind.moving 0 Reachable.init) (by decide) (by decide)⟩

/-! ### C3: the zero-total aggregation -/

/-- C3: on the empty log the code computes `0 / 0 * 100` without any guard
and `toFixed(1)` renders `"NaN"` for every activity — not the neutral
`0.0%` result the spec requires. -/
theorem c3_empty_log_shares_are_nan (now : Int) :
    calculateDurations [] now = ("NaN", "NaN", "NaN") := rfl

/-! ### C10: falsiness of `endTime = 0` -/

theorem zeroToOpen_activity (e : TimeEntry) : (zeroToOpen e).activity = e.activity := by
  unfold zeroToOpen
  split <;> rfl

theorem zeroToOpen_startTime (e : TimeEntry) : (zeroToOpen e).startTime = e.startTime := by
  unfold zeroToOpen
  split <;> rfl

theorem jsOrNow_zeroToOpen (e : TimeEntry) (now : Int) :
    jsOrNow (zeroToOpen e).endTime now = jsOrNow e.endTime now := by
  unfold zeroToOpen
  by_cases h : e.endTime = some 0
  · rw [if_pos h, h]
    rfl
  · rw [if_neg h]

theorem durationsOf_zeroToOpen (entries : List TimeEntry) (now : Int) :
    durationsOf (entries.map zeroToOpen) now = durationsOf entries now := by
  unfold durationsOf
  rw [List.foldl_map]
  congr 1
  funext acc e
  simp only [jsOrNow_zeroToOpen, zeroToOpen_startTime, zeroToOpen_activity]

theorem exportRow_zeroToOpen (fmtTime : Int → String) (now : Int) (e : TimeEntry) :
    exportRow fmtTime now (zeroToOpen e) = exportRow fmtTime now e := by
  unfold exportRow
  simp only [jsOrNow_zeroToOpen, zeroToOpen_startTime, zeroToOpen_activity]

/-- C10: the aggregator and the serializer test openness by falsiness
(`entry.endTime || Date.now()`), so an entry closed exactly at timestamp 0
is treated as if it were open (both functions are unchanged when such an
entry is replaced by an open one, and `jsOrNow` substitutes `now` for both
`null` and `0`), while every non-zero stored end time is used as is. -/
theorem c10_falsy_end_time (fmtTime : Int → String) (entries : List TimeEntry)
    (now t : Int) (ht : t ≠ 0) :
    calculateDurations entries now = calculateDurations (entries.map zeroToOpen) now ∧
    exportToCSV fmtTime entries now = exportToCSV fmtTime (entries.map zeroToOpen) now ∧
    jsOrNow (some 0) now = now ∧ jsOrNow none now = now ∧ jsOrNow (some t) now = t := by
  refine ⟨?_, ?_, rfl, rfl, ?_⟩
  · unfold calculateDurations
    rw [durationsOf_zeroToOpen]
  · unfold exportToCSV
    rw [List.map_map]
    have : (exportRow fmtTime now ∘ zeroToOpen) = exportRow fmtTime now := by
      funext e
      exact exportRow_zeroToOpen fmtTime now e
    rw [this]
  · simp [jsOrNow, ht]

theorem c10_witness :
    ((7 : Int) ≠ 0) ∧
    (calculateDurations [⟨some ActivityKind.moving, 5, some 0⟩] 100 =
        calculateDurations ([⟨some ActivityKind.moving, 5, some 0⟩].map zeroToOpen) 100 ∧
      exportToCSV (fun _ => "x") [⟨some ActivityKind.moving, 5, some 0⟩] 100 =
        exportToCSV (fun _ => "x") ([⟨some ActivityKind.moving, 5, some 0⟩].map zeroToOpen) 100 ∧
      jsOrNow (some 0) 100 = 100 ∧ jsOrNow none 100 = 100 ∧ jsOrNow (some 7) 100 = 7) :=
  ⟨by decide,
   c10_falsy_end_time (fun _ => "x") [⟨some ActivityKind.moving, 5, some 0⟩] 100 7 (by decide)⟩

/-! ### C6: the one-decimal shares sum to 100.0 within rounding tolerance -/

theorem calculateDurations_eq (entries : List TimeEntry) (now : Int) :
    calculateDurations entries now =
      (toFixed1 (jsMul100 (jsDiv (durationsOf entries now).1 (totalDuration entries now))),
       toFixed1 (jsMul100 (jsDiv (durationsOf entries now).2.1 (totalDuration entries now))),
       toFixed1 (jsMul100 (jsDiv (durationsOf entries now).2.2 (totalDuration entries now)))) :=
  rfl

theorem round1_le (q : ℚ) : (round1 q : ℚ) ≤ q * 10 + 1 / 2 := by
  rw [round1]
  exact_mod_cast Int.floor_le (q * 10 + 1 / 2)

theorem lt_round1 (q : ℚ) : q * 10 + 1 / 2 - 1 < (round1 q : ℚ) := by
  rw [round1]
  exact_mod_cast Int.sub_one_lt_floor (q * 10 + 1 / 2)

/-- C6: for a non-empty log with strictly positive total, the three
formatted one-decimal shares are `fixed1 n1`, `fixed1 n2`, `fixed1 n3`
(decimal strings denoting `n1/10`, `n2/10`, `n3/10` percent) and their sum
is within one tenth of 100.0. -/
theorem c6_shares_sum_within_tolerance (entries : List TimeEntry) (now : Int)
    (hne : entries ≠ []) (hpos : 0 < totalDuration entries now) :
    ∃ n1 n2 n3 : Int,
      calculateDurations entries now = (fixed1 n1, fixed1 n2, fixed1 n3) ∧
      |n1 + n2 + n3 - 1000| ≤ 1 := by
  have htz : totalDuration entries now ≠ 0 := by omega
  have hTz : ((totalDuration entries now : Int) : ℚ) ≠ 0 := Int.cast_ne_zero.mpr htz
  set d1 : Int := (durationsOf entries now).1 with hd1
  set d2 : Int := (durationsOf entries now).2.1 with hd2
  set d3 : Int := (durationsOf entries now).2.2 with hd3
  set T : ℚ := ((totalDuration entries now : Int) : ℚ) with hT
  set q1 : ℚ := (d1 : ℚ) / T * 100 with hq1
  set q2 : ℚ := (d2 : ℚ) / T * 100 with hq2
  set q3 : ℚ := (d3 : ℚ) / T * 100 with hq3
  refine ⟨round1 q1, round1 q2, round1 q3, ?_, ?_⟩
  · rw [calculateDurations_eq]
    simp only [jsDiv, if_neg htz, jsMul100, toFixed1]
  · have hsumd : (d1 : ℚ) + (d2 : ℚ) + (d3 : ℚ) = T := by
      rw [hT]
      unfold totalDuration
      push_cast
      rw [hd1, hd2, hd3]
    have hqsum : q1 + q2 + q3 = 100 := by
      have hstep : q1 + q2 + q3 = ((d1 : ℚ) + (d2 : ℚ) + (d3 : ℚ)) / T * 100 := by
        rw [hq1, hq2, hq3]
        ring
      rw [hstep, hsumd, div_self hTz, one_mul]
    have hub : ((round1 q1 + round1 q2 + round1 q3 : Int) : ℚ) ≤ 1001 + 1 / 2 := by
      push_cast
      have h1 := round1_le q1
      have h2 := round1_le q2
      have h3 := round1_le q3
      have : q1 * 10 + q2 * 10 + q3 * 10 = 1000 := by
        have := hqsum
        linarith
      linarith
    have hlb : (998 : ℚ) + 1 / 2 < ((round1 q1 + round1 q2 + round1 q3 : Int) : ℚ) := by
      push_cast
      have h1 := lt_round1 q1
      have h2 := lt_round1 q2
      have h3 := lt_round1 q3
      have : q1 * 10 + q2 * 10 + q3 * 10 = 1000 := by linarith
      linarith
    push_cast at hub hlb
    have hub2 : round1 q1 + round1 q2 + round1 q3 ≤ 1001 := by
      by_contra hcon
      push_neg at hcon
      have : ((1002 : Int) : ℚ) ≤ ((round1 q1 + round1 q2 + round1 q3 : Int) : ℚ) := by
        exact_mod_cast hcon
      norm_num at this
      linarith
    have hlb2 : 999 ≤ round1 q1 + round1 q2 + round1 q3 := by
      by_contra hcon
      push_neg at hcon
      have : ((round1 q1 + round1 q2 + round1 q3 : Int) : ℚ) ≤ ((998 : Int) : ℚ) := by
        exact_mod_cast Int.lt_add_one_iff.mp hcon
      norm_num at this
      linarith
    rw [abs_le]
    omega

theorem c6_witness :
    ([⟨some ActivityKind.moving, 0, some 60000⟩,
        ⟨some ActivityKind.traffic, 60000, some 90000⟩] : List TimeEntry) ≠ [] ∧
    0 < totalDuration
        [⟨some ActivityKind.moving, 0, some 60000⟩,
          ⟨some ActivityKind.traffic, 60000, some 90000⟩] 90000 ∧
    ∃ n1 n2 n3 : Int,
      calculateDurations
          [⟨some ActivityKind.moving, 0, some 60000⟩,
            ⟨some ActivityKind.traffic, 60000, some 90000⟩] 90000 =
        (fixed1 n1, fixed1 n2, fixed1 n3) ∧
      |n1 + n2 + n3 - 1000| ≤ 1 :=
  ⟨by decide, by decide,
   c6_shares_sum_within_tolerance _ 90000 (by decide) (by decide)⟩

/-! ### Decimal rendering: parse / print round-trip -/

theorem natToCharsFuel_mem (fuel : Nat) :
    ∀ (n : Nat) (c : Char), c ∈ natToCharsFuel fuel n → ∃ k, k < 10 ∧ c = digitChar k := by
  induction fuel with
  | zero =>
    intro n c hc
    cases hc
  | succ fuel ih =>
    intro n c hc
    rw [natToCharsFuel] at hc
    by_cases h : n < 10
    · rw [if_pos h, List.mem_singleton] at hc
      exact ⟨n, h, hc⟩
    · rw [if_neg h, List.mem_append] at hc
      rcases hc with hc | hc
      · exact ih _ _ hc
      · rw [List.mem_singleton] at hc
        exact ⟨n % 10, Nat.mod_lt _ (by omega), hc⟩

theorem digitChar_isDigit (k : Nat) (h : k < 10) : (digitChar k).isDigit = true := by
  interval_cases k <;> decide

theorem digitChar_val (k : Nat) (h : k < 10) : (digitChar k).toNat - 48 = k := by
  interval_cases k <;> decide

theorem mem_natToChars_isDigit {c : Char} {n : Nat} (hc : c ∈ natToChars n) :
    c.isDigit = true := by
  obtain ⟨k, hk, rfl⟩ := natToCharsFuel_mem (n + 1) n c hc
  exact digitChar_isDigit k hk

theorem natToChars_ne_nil (n : Nat) : natToChars n ≠ [] := by
  rw [natToChars, natToCharsFuel]
  by_cases h : n < 10 <;> simp [h]

theorem foldl_digits_acc (l : List Char) :
    ∀ acc : Nat,
      l.foldl (fun acc c => acc * 10 + (c.toNat - 48)) acc =
        acc * 10 ^ l.length + digitsToNat l := by
  induction l with
  | nil =>
    intro acc
    simp [digitsToNat]
  | cons c cs ih =>
    intro acc
    rw [List.foldl_cons]
    rw [ih (acc * 10 + (c.toNat - 48))]
    have hfold : digitsToNat (c :: cs) = (0 * 10 + (c.toNat - 48)) * 10 ^ cs.length +
        digitsToNat cs := by
      rw [digitsToNat, List.foldl_cons, ih (0 * 10 + (c.toNat - 48))]
    rw [hfold, List.length_cons]
    ring

theorem digitsToNat_append_single (l : List Char) (c : Char) :
    digitsToNat (l ++ [c]) = digitsToNat l * 10 + (c.toNat - 48) := by
  rw [digitsToNat, List.foldl_append]
  rw [show List.foldl (fun acc c => acc * 10 + (c.toNat - 48)) 0 l = digitsToNat l from rfl]
  rw [List.foldl_cons, List.foldl_nil]

theorem digitsToNat_natToCharsFuel (fuel : Nat) :
    ∀ n : Nat, n < 10 ^ fuel → digitsToNat (natToCharsFuel fuel n) = n := by
  induction fuel with
  | zero =>
    intro n h
    rw [pow_zero] at h
    interval_cases n
    rfl
  | succ fuel ih =>
    intro n h
    rw [natToCharsFuel]
    by_cases hn : n < 10
    · rw [if_pos hn]
      have : digitsToNat [digitChar n] = (digitChar n).toNat - 48 := by
        rw [digitsToNat, List.foldl_cons, List.foldl_nil]
        omega
      rw [this, digitChar_val n hn]
    · rw [if_neg hn]
      have hdiv : n / 10 < 10 ^ fuel := by
        rw [Nat.div_lt_iff_lt_mul (by norm_num)]
        rw [pow_succ] at h
        exact h
      rw [digitsToNat_append_single, ih _ hdiv, digitChar_val (n % 10) (Nat.mod_lt _ (by omega))]
      omega

theorem digitsToNat_natToChars (n : Nat) : digitsToNat (natToChars n) = n := by
  rw [natToChars]
  refine digitsToNat_natToCharsFuel (n + 1) n ?_
  calc n < 10 ^ n := Nat.lt_pow_self (by norm_num) n
    _ ≤ 10 ^ (n + 1) := Nat.pow_le_pow_right (by norm_num) (by omega)

theorem digitsToNat_cons_zero (l : List Char) : digitsToNat ('0' :: l) = digitsToNat l := rfl

theorem digitsToNat_replicate_zero (k : Nat) (l : List Char) :
    digitsToNat (List.replicate k '0' ++ l) = digitsToNat l := by
  induction k with
  | zero => rfl
  | succ k ih =>
    rw [List.replicate_succ, List.cons_append, digitsToNat_cons_zero, ih]

theorem parseNatChars_pad (k v : Nat) :
    parseNatChars (List.replicate k '0' ++ natToChars v) = some v := by
  rw [parseNatChars, if_pos, digitsToNat_replicate_zero, digitsToNat_natToChars]
  constructor
  · intro habs
    rw [List.append_eq_nil] at habs
    exact natToChars_ne_nil v habs.2
  · rw [List.all_eq_true]
    intro c hc
    rw [List.mem_append] at hc
    rcases hc with hc | hc
    · rw [List.eq_of_mem_replicate hc]
      decide
    · exact mem_natToChars_isDigit hc

theorem parseNatChars_natToChars (v : Nat) : parseNatChars (natToChars v) = some v := by
  have := parseNatChars_pad 0 v
  simpa using this

/-! ### C7: the serialized format -/

theorem formatDuration_eq (s t : Int) :
    formatDuration s t =
      intToString ((t - s).fdiv 60000) ++ ":" ++
        padStart (intToString (((t - s).tmod 60000).fdiv 1000)) 2 '0' ++ "." ++
        padStart (intToString ((t - s).tmod 1000)) 3 '0' := rfl

theorem intToString_natCast (n : Nat) : intToString ((n : Nat) : Int) = natToString n := by
  have h1 : ¬ (((n : Nat) : Int) < 0) := by simp
  rw [intToString, if_neg h1, Int.toNat_natCast]

theorem intFdiv_natCast_60000 (n : Nat) :
    ((n : Nat) : Int).fdiv 60000 = ((n / 60000 : Nat) : Int) := by
  rw [Int.fdiv_eq_ediv _ (by norm_num)]
  push_cast
  rfl

theorem intTmod_natCast_60000 (n : Nat) :
    ((n : Nat) : Int).tmod 60000 = ((n % 60000 : Nat) : Int) := by
  rw [Int.tmod_eq_emod (by positivity) (by norm_num)]
  push_cast
  rfl

theorem intFdiv_natCast_1000 (n : Nat) :
    ((n : Nat) : Int).fdiv 1000 = ((n / 1000 : Nat) : Int) := by
  rw [Int.fdiv_eq_ediv _ (by norm_num)]
  push_cast
  rfl

theorem intTmod_natCast_1000 (n : Nat) :
    ((n : Nat) : Int).tmod 1000 = ((n % 1000 : Nat) : Int) := by
  rw [Int.tmod_eq_emod (by positivity) (by norm_num)]
  push_cast
  rfl

/-- On a nonnegative duration, the code's `formatDuration` produces exactly
the spec's `minutes:seconds.milliseconds` text. -/
theorem formatDuration_nonneg (s t : Int) (h : s ≤ t) :
    formatDuration s t = specDurationText (t - s).toNat := by
  have h0 : (0 : Int) ≤ t - s := by omega
  obtain ⟨n, hn⟩ : ∃ n : Nat, t - s = ((n : Nat) : Int) := ⟨(t - s).toNat,
    (Int.toNat_of_nonneg h0).symm⟩
  rw [formatDuration_eq, hn, intFdiv_natCast_60000, intTmod_natCast_60000,
    intFdiv_natCast_1000, intTmod_natCast_1000, intToString_natCast, intToString_natCast,
    intToString_natCast]
  rw [Int.toNat_natCast]
  rfl

/-- C7 (as stated) is false on the code: for an entry whose effective
duration is negative (closed before it started), `formatDuration` emits
`"-1:-1.-50"`, which is not of the claimed `minutes:seconds.milliseconds`
shape, so the serializer does not refine the spec's row format on every
log. -/
theorem c7_counterexample :
    formatDuration 100 (jsOrNow (some 50) 0) = "-1:-1.-50" ∧
    exportToCSV (fun _ => "t") [⟨some ActivityKind.moving, 100, some 50⟩] 0 ≠
      serializeSpec (fun _ => "t") [⟨some ActivityKind.moving, 100, some 50⟩] 0 := by
  constructor
  · decide
  · decide

/-- C7 (amended): for every log whose entries carry valid activities and
have nonnegative effective durations at `now`, `exportToCSV` produces
exactly the header row followed by one row per entry in log order with the
canonical lowercase activity name and the duration in unpadded-minutes,
2-digit-seconds, 3-digit-milliseconds format (`serializeSpec`); and the
empty log always yields the header row alone. -/
theorem c7_serialize_matches_spec :
    (∀ (fmtTime : Int → String) (entries : List TimeEntry) (now : Int),
      (∀ e ∈ entries, e.activity ≠ none) →
      (∀ e ∈ entries, e.startTime ≤ jsOrNow e.endTime now) →
      exportToCSV fmtTime entries now = serializeSpec fmtTime entries now) ∧
    (∀ (fmtTime : Int → String) (now : Int),
      exportToCSV fmtTime [] now = "activity_type,start_time,end_time,duration") := by
  constructor
  · intro fmtTime entries now hval hdur
    rw [exportToCSV, serializeSpec]
    have hhead : jsJoin "," ["activity_type", "start_time", "end_time", "duration"] =
        "activity_type,start_time,end_time,duration" := rfl
    rw [hhead]
    congr 1
    congr 1
    apply List.map_congr_left
    intro e he
    cases hae : e.activity with
    | none => exact absurd hae (hval e he)
    | some k =>
      have hrow : exportRow fmtTime now e =
          jsShowActivity e.activity ++ "," ++ fmtTime e.startTime ++ "," ++
            fmtTime (jsOrNow e.endTime now) ++ "," ++
            formatDuration e.startTime (jsOrNow e.endTime now) := rfl
      simp only []
      rw [hrow, hae, formatDuration_nonneg e.startTime (jsOrNow e.endTime now) (hdur e he)]
  · intro fmtTime now
    rfl

theorem c7_witness :
    (∀ e ∈ ([⟨some ActivityKind.moving, 0, some 60000⟩] : List TimeEntry), e.activity ≠ none) ∧
    (∀ e ∈ ([⟨some ActivityKind.moving, 0, some 60000⟩] : List TimeEntry),
      e.startTime ≤ jsOrNow e.endTime 90000) ∧
    exportToCSV (fun _ => "t") [⟨some ActivityKind.moving, 0, some 60000⟩] 90000 =
      serializeSpec (fun _ => "t") [⟨some ActivityKind.moving, 0, some 60000⟩] 90000 :=
  ⟨by decide, by decide, c7_serialize_matches_spec.1 _ _ _ (by decide) (by decide)⟩

/-! ### C8: splitting the CSV text back apart -/

theorem splitCh_cons (sep c : Char) (cs : List Char) :
    splitCh sep (c :: cs) =
      if c = sep then [] :: splitCh sep cs
      else
        match splitCh sep cs with
        | [] => [[c]]
        | h :: t => (c :: h) :: t := rfl

theorem splitCh_not_mem (sep : Char) (l : List Char) (h : sep ∉ l) : splitCh sep l = [l] := by
  induction l with
  | nil => rfl
  | cons c cs ih =>
    have hc : ¬ c = sep := by
      intro habs
      exact h (by rw [habs]; exact List.mem_cons_self sep cs)
    have hcs : sep ∉ cs := fun habs => h (List.mem_cons_of_mem c habs)
    rw [splitCh_cons, if_neg hc, ih hcs]

theorem splitCh_append (sep : Char) (l1 l2 : List Char) (h : sep ∉ l1) :
    splitCh sep (l1 ++ sep :: l2) = l1 :: splitCh sep l2 := by
  induction l1 with
  | nil =>
    rw [List.nil_append, splitCh_cons, if_pos rfl]
  | cons c cs ih =>
    have hc : ¬ c = sep := by
      intro habs
      exact h (by rw [habs]; exact List.mem_cons_self sep cs)
    have hcs : sep ∉ cs := fun habs => h (List.mem_cons_of_mem c habs)
    rw [List.cons_append, splitCh_cons, if_neg hc, ih hcs]

theorem jsJoin_two_or_more (sep : String) (x y : String) (ys : List String) :
    jsJoin sep (x :: y :: ys) = x ++ sep ++ jsJoin sep (y :: ys) := rfl

theorem splitCh_jsJoin (sep : Char) (sepStr : String) (hs : sepStr.data = [sep]) :
    ∀ ls : List String, ls ≠ [] → (∀ x ∈ ls, sep ∉ x.data) →
      splitCh sep (jsJoin sepStr ls).data = ls.map String.data := by
  intro ls
  induction ls with
  | nil =>
    intro h
    exact absurd rfl h
  | cons x xs ih =>
    intro _ hmem
    cases xs with
    | nil =>
      rw [show jsJoin sepStr [x] = x from rfl]
      rw [splitCh_not_mem sep x.data (hmem x (List.mem_cons_self x []))]
      rfl
    | cons y ys =>
      have hdata : (x ++ sepStr ++ jsJoin sepStr (y :: ys)).data =
          x.data ++ sep :: (jsJoin sepStr (y :: ys)).data := by
        rw [String.data_append, String.data_append, hs, List.append_assoc,
          List.singleton_append]
      rw [jsJoin_two_or_more, hdata,
        splitCh_append sep _ _ (hmem x (List.mem_cons_self x (y :: ys))),
        ih (by simp) (fun z hz => hmem z (List.mem_cons_of_mem x hz))]
      rfl

theorem splitCh_four_fields (A B C D : List Char) (hA : ',' ∉ A) (hB : ',' ∉ B)
    (hC : ',' ∉ C) (hD : ',' ∉ D) :
    splitCh ',' (A ++ ',' :: (B ++ ',' :: (C ++ ',' :: D))) = [A, B, C, D] := by
  rw [splitCh_append _ _ _ hA, splitCh_append _ _ _ hB, splitCh_append _ _ _ hC,
    splitCh_not_mem _ _ hD]

theorem colonData : (":").data = [':'] := rfl

theorem dotData : (".").data = ['.'] := rfl

theorem commaData : (",").data = [','] := rfl

theorem natToString_data (n : Nat) : (natToString n).data = natToChars n := rfl

theorem padStart_data (s : String) (len : Nat) (c : Char) :
    (padStart s len c).data = List.replicate (len - s.data.length) c ++ s.data := by
  rw [padStart, String.data_append]

theorem mem_padChunk {c : Char} {k n : Nat}
    (h : c ∈ List.replicate k '0' ++ natToChars n) : c.isDigit = true := by
  rw [List.mem_append] at h
  rcases h with h | h
  · rw [List.eq_of_mem_replicate h]
    decide
  · exact mem_natToChars_isDigit h

theorem colon_not_mem_natToChars (n : Nat) : ':' ∉ natToChars n := by
  intro h
  exact absurd (mem_natToChars_isDigit h) (by decide)

theorem specDurationText_data (d : Nat) :
    (specDurationText d).data =
      natToChars (d / 60000) ++ ':' ::
        ((List.replicate (2 - (natToChars (d % 60000 / 1000)).length) '0' ++
            natToChars (d % 60000 / 1000)) ++ '.' ::
          (List.replicate (3 - (natToChars (d % 1000)).length) '0' ++
            natToChars (d % 1000))) := by
  rw [specDurationText, String.data_append, String.data_append, String.data_append,
    String.data_append, colonData, dotData, padStart_data, padStart_data,
    natToString_data, natToString_data, natToString_data]
  simp [List.append_assoc]

theorem parseDuration_specText (d : Nat) :
    parseDurationChars (specDurationText d).data = some d := by
  have hrest_colon :
      ':' ∉ (List.replicate (2 - (natToChars (d % 60000 / 1000)).length) '0' ++
          natToChars (d % 60000 / 1000)) ++ '.' ::
        (List.replicate (3 - (natToChars (d % 1000)).length) '0' ++
          natToChars (d % 1000)) := by
    intro h
    rcases List.mem_append.mp h with h | h
    · exact absurd (mem_padChunk h) (by decide)
    · rcases List.mem_cons.mp h with h | h
      · exact absurd h (by decide)
      · exact absurd (mem_padChunk h) (by decide)
  have hsec_dot :
      '.' ∉ List.replicate (2 - (natToChars (d % 60000 / 1000)).length) '0' ++
        natToChars (d % 60000 / 1000) := by
    intro h
    exact absurd (mem_padChunk h) (by decide)
  have hms_dot :
      '.' ∉ List.replicate (3 - (natToChars (d % 1000)).length) '0' ++
        natToChars (d % 1000) := by
    intro h
    exact absurd (mem_padChunk h) (by decide)
  rw [parseDurationChars, specDurationText_data,
    splitCh_append ':' _ _ (colon_not_mem_natToChars (d / 60000)),
    splitCh_not_mem ':' _ hrest_colon]
  simp only [splitCh_append '.' _ _ hsec_dot, splitCh_not_mem '.' _ hms_dot,
    parseNatChars_natToChars, parseNatChars_pad]
  have harith : d / 60000 * 60000 + d % 60000 / 1000 * 1000 + d % 1000 = d := by omega
  simp [harith]

theorem mem_specDurationText (d : Nat) (c : Char) (hc : c ∈ (specDurationText d).data) :
    c.isDigit = true ∨ c = ':' ∨ c = '.' := by
  rw [specDurationText_data] at hc
  rcases List.mem_append.mp hc with h | h
  · exact Or.inl (mem_natToChars_isDigit h)
  · rcases List.mem_cons.mp h with h | h
    · exact Or.inr (Or.inl h)
    · rcases List.mem_append.mp h with h | h
      · exact Or.inl (mem_padChunk h)
      · rcases List.mem_cons.mp h with h | h
        · exact Or.inr (Or.inr h)
        · exact Or.inl (mem_padChunk h)

theorem comma_not_mem_specDurationText (d : Nat) : ',' ∉ (specDurationText d).data := by
  intro h
  rcases mem_specDurationText d ',' h with h | h | h
  · exact absurd h (by decide)
  · exact absurd h (by decide)
  · exact absurd h (by decide)

theorem newline_not_mem_specDurationText (d : Nat) : '\n' ∉ (specDurationText d).data := by
  intro h
  rcases mem_specDurationText d '\n' h with h | h | h
  · exact absurd h (by decide)
  · exact absurd h (by decide)
  · exact absurd h (by decide)

theorem comma_not_mem_jsShowActivity (o : Option ActivityKind) :
    ',' ∉ (jsShowActivity o).data := by
  cases o with
  | none => decide
  | some k => cases k <;> decide

theorem newline_not_mem_jsShowActivity (o : Option ActivityKind) :
    '\n' ∉ (jsShowActivity o).data := by
  cases o with
  | none => decide
  | some k => cases k <;> decide

theorem exportRow_data (fmtTime : Int → String) (now : Int) (e : TimeEntry) :
    (exportRow fmtTime now e).data =
      (jsShowActivity e.activity).data ++ ',' ::
        ((fmtTime e.startTime).data ++ ',' ::
          ((fmtTime (jsOrNow e.endTime now)).data ++ ',' ::
            (formatDuration e.startTime (jsOrNow e.endTime now)).data)) := by
  rw [show exportRow fmtTime now e =
      jsShowActivity e.activity ++ "," ++ fmtTime e.startTime ++ "," ++
        fmtTime (jsOrNow e.endTime now) ++ "," ++
        formatDuration e.startTime (jsOrNow e.endTime now) from rfl]
  rw [String.data_append, String.data_append, String.data_append, String.data_append,
    String.data_append, String.data_append, commaData]
  simp [List.append_assoc]

theorem newline_not_mem_exportRow (fmtTime : Int → String) (now : Int) (e : TimeEntry)
    (hfmt : ∀ t : Int, '\n' ∉ (fmtTime t).data)
    (hd : e.startTime ≤ jsOrNow e.endTime now) :
    '\n' ∉ (exportRow fmtTime now e).data := by
  rw [exportRow_data, formatDuration_nonneg _ _ hd]
  intro h
  rcases List.mem_append.mp h with h | h
  · exact newline_not_mem_jsShowActivity e.activity h
  · rcases List.mem_cons.mp h with h | h
    · exact absurd h (by decide)
    · rcases List.mem_append.mp h with h | h
      · exact hfmt e.startTime h
      · rcases List.mem_cons.mp h with h | h
        · exact absurd h (by decide)
        · rcases List.mem_append.mp h with h | h
          · exact hfmt _ h
          · rcases List.mem_cons.mp h with h | h
            · exact absurd h (by decide)
            · exact newline_not_mem_specDurationText _ h

theorem effectiveDurationSpec_eq_code (e : TimeEntry) (now : Int)
    (hz : e.endTime ≠ some 0) :
    (jsOrNow e.endTime now - e.startTime).toNat = effectiveDurationSpec e now := by
  cases he : e.endTime with
  | none => simp [effectiveDurationSpec, jsOrNow, he]
  | some t =>
    have ht : ¬ t = 0 := by
      intro habs
      rw [habs] at he
      exact hz he
    simp [effectiveDurationSpec, jsOrNow, he, ht]

/-- C8 (as stated) is false on the code: the entry
`{activity: moving, startTime: 0, endTime: 0}` is closed (its effective
duration per the spec is 0 ms), but the serializer's falsy end-time test
treats it as open and writes the duration `1:00.000` at `now = 60000`, so
parsing recovers 60000 ms, not the entry's effective duration. -/
theorem c8_counterexample :
    parseCSV (exportToCSV (fun _ => "T") [⟨some ActivityKind.moving, 0, some 0⟩] 60000) =
      [[['m', 'o', 'v', 'i', 'n', 'g'], ['T'], ['T'],
        ['1', ':', '0', '0', '.', '0', '0', '0']]] ∧
    parseDurationChars ['1', ':', '0', '0', '.', '0', '0', '0'] = some 60000 ∧
    effectiveDurationSpec ⟨some ActivityKind.moving, 0, some 0⟩ 60000 = 0 ∧
    (60000 : Nat) ≠ 0 :=
  ⟨by decide, by decide, by decide, by decide⟩

/-- C8 (amended): for every log whose entries have nonnegative effective
durations and are not closed exactly at timestamp 0, and every locale time
formatter free of commas and newlines, splitting the serialized text on
newlines (dropping the header) and on commas recovers, per row, the
entry's activity label and a duration field that parses back to exactly
the entry's effective duration at `now` in milliseconds. -/
theorem c8_round_trip (fmtTime : Int → String) (entries : List TimeEntry) (now : Int)
    (hfmt : ∀ t : Int, '\n' ∉ (fmtTime t).data ∧ ',' ∉ (fmtTime t).data)
    (hdur : ∀ e ∈ entries, e.startTime ≤ jsOrNow e.endTime now)
    (hz : ∀ e ∈ entries, e.endTime ≠ some 0) :
    parseCSV (exportToCSV fmtTime entries now) =
      entries.map (fun e =>
        [(jsShowActivity e.activity).data, (fmtTime e.startTime).data,
          (fmtTime (jsOrNow e.endTime now)).data,
          (formatDuration e.startTime (jsOrNow e.endTime now)).data]) ∧
    ∀ e ∈ entries,
      parseDurationChars ((formatDuration e.startTime (jsOrNow e.endTime now)).data) =
        some (effectiveDurationSpec e now) := by
  constructor
  · rw [parseCSV, exportToCSV]
    have hmem : ∀ x ∈ jsJoin "," ["activity_type", "start_time", "end_time", "duration"] ::
        entries.map (exportRow fmtTime now), '\n' ∉ x.data := by
      intro x hx
      rcases List.mem_cons.mp hx with hx | hx
      · subst hx
        decide
      · rw [List.mem_map] at hx
        obtain ⟨e, he, rfl⟩ := hx
        exact newline_not_mem_exportRow fmtTime now e (fun t => (hfmt t).1) (hdur e he)
    rw [splitCh_jsJoin '\n' "\n" rfl _ (by simp) hmem]
    rw [List.map_cons, List.drop_succ_cons, List.drop_zero, List.map_map, List.map_map]
    apply List.map_congr_left
    intro e he
    show splitCh ',' (exportRow fmtTime now e).data = _
    rw [exportRow_data]
    exact splitCh_four_fields _ _ _ _ (comma_not_mem_jsShowActivity _) ((hfmt _).2)
      ((hfmt _).2)
      (by
        rw [formatDuration_nonneg _ _ (hdur e he)]
        exact comma_not_mem_specDurationText _)
  · intro e he
    rw [formatDuration_nonneg _ _ (hdur e he), parseDuration_specText,
      effectiveDurationSpec_eq_code e now (hz e he)]

theorem c8_witness :
    parseCSV (exportToCSV (fun _ => "T") [⟨some ActivityKind.moving, 0, some 60000⟩] 90000) =
      ([⟨some ActivityKind.moving, 0, some 60000⟩] : List TimeEntry).map (fun e =>
        [(jsShowActivity e.activity).data, ((fun _ : Int => "T") e.startTime).data,
          ((fun _ : Int => "T") (jsOrNow e.endTime 90000)).data,
          (formatDuration e.startTime (jsOrNow e.endTime 90000)).data]) ∧
    ∀ e ∈ ([⟨some ActivityKind.moving, 0, some 60000⟩] : List TimeEntry),
      parseDurationChars ((formatDuration e.startTime (jsOrNow e.endTime 90000)).data) =
        some (effectiveDurationSpec e 90000) :=
  c8_round_trip (fun _ => "T") [⟨some ActivityKind.moving, 0, some 60000⟩] 90000
    (fun t =>
      ⟨by show '\n' ∉ ("T").data; decide, by show ',' ∉ ("T").data; decide⟩)
    (by decide) (by decide)
